import Mathlib

/-!
Shallow embedding of `src/password-generator/password_generator.py`
(class `PasswordGenerator`): the constrained-random password generator
(`generate_password`) and the strength analyzer (`check_strength`).

Randomness is modelled as an explicit stream of natural numbers together
with a position counter (`Rng`); `secrets.choice(s)` becomes "take the next
stream value `n` and return `s[n % len(s)]`", which ranges over exactly the
elements of `s` for nonempty `s`.  `secrets.SystemRandom().shuffle` is
library code outside the repository; the spec describes it as a
Fisher-Yates shuffle driven by the same source, and it is embedded as such
(`fisherYates`).  Python `int` fields are embedded as `Int`; a draw loop
`for _ in range(m)` over an `Int` `m` performs `m.toNat` draws, matching
Python's empty `range` for non-positive `m`.  Raising `ValueError` is
embedded as `Except.error` with the message text.
-/

namespace PasswordGenerator

/-- `self.lowercase = string.ascii_lowercase` (`__init__`, line 20). -/
def lowercase : List Char := "abcdefghijklmnopqrstuvwxyz".data

/-- `self.uppercase = string.ascii_uppercase` (`__init__`, line 21). -/
def uppercase : List Char := "ABCDEFGHIJKLMNOPQRSTUVWXYZ".data

/-- `self.digits = string.digits` (`__init__`, line 22). -/
def digits : List Char := "0123456789".data

/-- `self.special_chars = "!@#$%^&*()-_+=[]{}|;:,.<>?"` (`__init__`, line 23). -/
def special_chars : List Char := "!@#$%^&*()-_+=[]\x7b\x7d|;:,.<>?".data

/-- `self.ambiguous_chars = "il1Lo0O"` (`__init__`, line 24). -/
def ambiguous_chars : List Char := "il1Lo0O".data

/-- The random source: an infinite stream of naturals and a position.
The number of values consumed by a computation is the difference of the
`idx` fields of the final and initial states. -/
structure Rng where
  stream : Nat → Nat
  idx : Nat

/-- Take the next value from the source. -/
def Rng.next (g : Rng) : Nat × Rng :=
  (g.stream g.idx, { g with idx := g.idx + 1 })

/-- `secrets.choice(s)`: a uniform draw from a nonempty sequence, modelled
as indexing by the next stream value modulo the length.  (In the source
every call site passes a nonempty sequence; the `getD` default is never
reached there.) -/
def choice (s : List Char) (g : Rng) : Char × Rng :=
  let (n, g1) := g.next
  (s.getD (n % s.length) 'a', g1)

/-- `[secrets.choice(s) for _ in range(n)]`: `n` independent draws from `s`. -/
def drawN (s : List Char) : Nat → Rng → List Char × Rng
  | 0, g => ([], g)
  | n + 1, g =>
    let (c, g1) := choice s g
    let (cs, g2) := drawN s n g1
    (c :: cs, g2)

/-- One swap of a Python list shuffle: `x[i], x[j] = x[j], x[i]`
(both positions are read before either is written). -/
def swap (l : List Char) (i j : Nat) : List Char :=
  (l.set i (l.getD j 'a')).set j (l.getD i 'a')

/-- The loop of `random.shuffle`: `for i in reversed(range(1, len(x))):
j = randbelow(i+1); swap i j`.  `fyStep l i` runs the loop body for
`i, i-1, ..., 1`. -/
def fyStep (l : List Char) : Nat → Rng → List Char × Rng
  | 0, g => (l, g)
  | i + 1, g =>
    let (n, g1) := g.next
    fyStep (swap l (i + 1) (n % (i + 2))) i g1

/-- `secrets.SystemRandom().shuffle(password_chars)` (line 108): a
Fisher-Yates shuffle driven by the secure source, as the spec describes.
(The shuffle itself is Python library code, not part of the repository.) -/
def fisherYates (l : List Char) (g : Rng) : List Char × Rng :=
  fyStep l (l.length - 1) g

/-- The keyword arguments of `generate_password` (lines 26-38), with the
source's default values. -/
structure GenRequest where
  length : Int := 12
  include_uppercase : Bool := true
  include_lowercase : Bool := true
  include_digits : Bool := true
  include_special : Bool := true
  exclude_ambiguous : Bool := false
  custom_chars : List Char := []
  min_uppercase : Int := 1
  min_lowercase : Int := 1
  min_digits : Int := 1
  min_special : Int := 1

/-- The effective lowercase alphabet (lines 67-69): `self.lowercase`,
filtered by `c not in self.ambiguous_chars` when `exclude_ambiguous`. -/
def effLower (excl : Bool) : List Char :=
  if excl then lowercase.filter (fun c => !(ambiguous_chars.contains c)) else lowercase

/-- The effective uppercase alphabet (lines 74-76). -/
def effUpper (excl : Bool) : List Char :=
  if excl then uppercase.filter (fun c => !(ambiguous_chars.contains c)) else uppercase

/-- The effective digit alphabet (lines 81-83). -/
def effDigits (excl : Bool) : List Char :=
  if excl then digits.filter (fun c => !(ambiguous_chars.contains c)) else digits

/-- The value of `char_pool` after lines 62-93: the concatenation of the
included classes' effective alphabets (lowercase, uppercase, digits,
special - never filtered) followed by `custom_chars`.  The pool does not
depend on the random draws, so it is factored out of the draw sequence. -/
def candidatePool (req : GenRequest) : List Char :=
  (if req.include_lowercase then effLower req.exclude_ambiguous else []) ++
  (if req.include_uppercase then effUpper req.exclude_ambiguous else []) ++
  (if req.include_digits then effDigits req.exclude_ambiguous else []) ++
  (if req.include_special then special_chars else []) ++
  req.custom_chars

/-- The value of `required_chars` after lines 62-90 together with the
random state after those draws: for each included class, in source order
(lowercase, uppercase, digits, special), `min_<class>` draws from that
class's effective alphabet. -/
def requiredChars (req : GenRequest) (g : Rng) : List Char × Rng :=
  let (r1, g1) :=
    if req.include_lowercase then
      drawN (effLower req.exclude_ambiguous) req.min_lowercase.toNat g
    else ([], g)
  let (r2, g2) :=
    if req.include_uppercase then
      drawN (effUpper req.exclude_ambiguous) req.min_uppercase.toNat g1
    else ([], g1)
  let (r3, g3) :=
    if req.include_digits then
      drawN (effDigits req.exclude_ambiguous) req.min_digits.toNat g2
    else ([], g2)
  let (r4, g4) :=
    if req.include_special then
      drawN special_chars req.min_special.toNat g3
    else ([], g3)
  (r1 ++ r2 ++ r3 ++ r4, g4)

/-- `PasswordGenerator.generate_password` (lines 26-110).  Returns the
result (`Except.error` for a Python `ValueError`, `Except.ok` for the
returned string, as a character list) together with the final random
state. -/
def generate_password (req : GenRequest) (g : Rng) :
    Except String (List Char) × Rng :=
  if req.length < 4 then
    (Except.error "Password length must be at least 4 characters", g)
  else
    let (required_chars, g4) := requiredChars req g
    let char_pool := candidatePool req
    if char_pool = [] then
      (Except.error "No character types selected", g4)
    else if req.length < (required_chars.length : Int) then
      (Except.error "Minimum character requirements exceed password length", g4)
    else
      let remaining_length := (req.length - required_chars.length).toNat
      let (filler, g5) := drawN char_pool remaining_length g4
      let (password_chars, g6) := fisherYates (required_chars ++ filler) g5
      (Except.ok password_chars, g6)

/-- Whether a result is a raised error. -/
def isErr : Except String (List Char) → Bool
  | Except.error _ => true
  | Except.ok _ => false

/-- The sum of the per-class minimum counts over the included classes, as
the source effectively uses it: `len(required_chars)`, where a class with
a non-positive minimum contributes `0` draws (`range(m)` is empty). -/
def minSum (req : GenRequest) : Nat :=
  (if req.include_lowercase then req.min_lowercase.toNat else 0) +
  (if req.include_uppercase then req.min_uppercase.toNat else 0) +
  (if req.include_digits then req.min_digits.toNat else 0) +
  (if req.include_special then req.min_special.toNat else 0)

/-- `any(c in self.lowercase for c in password)` (line 128). -/
def has_lower (p : List Char) : Bool := p.any (fun c => lowercase.contains c)

/-- `any(c in self.uppercase for c in password)` (line 129). -/
def has_upper (p : List Char) : Bool := p.any (fun c => uppercase.contains c)

/-- `any(c in self.digits for c in password)` (line 130). -/
def has_digit (p : List Char) : Bool := p.any (fun c => digits.contains c)

/-- `any(c in self.special_chars for c in password)` (line 131). -/
def has_special (p : List Char) : Bool := p.any (fun c => special_chars.contains c)

/-- `any(c in self.ambiguous_chars for c in password)` (line 132). -/
def has_ambiguous (p : List Char) : Bool := p.any (fun c => ambiguous_chars.contains c)

/-- `char_pool_size` (lines 139-147): the sum of the reference alphabet
sizes of the classes present in the string. -/
def char_pool_size (p : List Char) : Nat :=
  (if has_lower p then 26 else 0) +
  (if has_upper p then 26 else 0) +
  (if has_digit p then 10 else 0) +
  (if has_special p then special_chars.length else 0)

/-- `analysis["entropy"]` (lines 134, 149-151):
`len(password) * math.log2(char_pool_size)` when the pool is nonempty,
otherwise the initial `0`. -/
noncomputable def entropyBits (p : List Char) : ℝ :=
  if 0 < char_pool_size p then (p.length : ℝ) * Real.logb 2 (char_pool_size p) else 0

/-- `len(set(password))` (line 133). -/
def unique_chars (p : List Char) : Nat := p.dedup.length

/-- The score of lines 154-170: one point per satisfied predicate.  The
source's `analysis["unique_chars"] >= len(password) * 0.8` is the exact
rational comparison written with cleared denominators, and its
`analysis["entropy"] >= 60` is written as the equivalent integer
comparison `char_pool_size ^ length >= 2 ^ 60` (see `entropy_ge_60_iff`
for the proof that the two conditions agree). -/
def score (p : List Char) : Nat :=
  (if 8 ≤ p.length then 1 else 0) +
  (if 12 ≤ p.length then 1 else 0) +
  (if has_lower p then 1 else 0) +
  (if has_upper p then 1 else 0) +
  (if has_digit p then 1 else 0) +
  (if has_special p then 1 else 0) +
  (if 8 * p.length ≤ 10 * unique_chars p then 1 else 0) +
  (if 2 ^ 60 ≤ char_pool_size p ^ p.length then 1 else 0)

/-- `analysis["strength"]` (lines 172-181). -/
def strengthLabel (s : Nat) : String :=
  if s ≤ 2 then "Very Weak"
  else if s ≤ 4 then "Weak"
  else if s ≤ 6 then "Moderate"
  else if s ≤ 7 then "Strong"
  else "Very Strong"

/-- The analysis dictionary returned by `check_strength` (lines 126-183).
`entropy` is real-valued in the source and is kept as the separate
function `entropyBits`; `char_pool_size` is a local of the source
recorded here as a field so its value can be stated. -/
structure Analysis where
  length : Nat
  has_lowercase : Bool
  has_uppercase : Bool
  has_digits : Bool
  has_special : Bool
  has_ambiguous : Bool
  unique_chars : Nat
  char_pool_size : Nat
  score : Nat
  strength : String

/-- `PasswordGenerator.check_strength` (lines 116-183). -/
def check_strength (p : List Char) : Analysis where
  length := p.length
  has_lowercase := has_lower p
  has_uppercase := has_upper p
  has_digits := has_digit p
  has_special := has_special p
  has_ambiguous := has_ambiguous p
  unique_chars := unique_chars p
  char_pool_size := char_pool_size p
  score := score p
  strength := strengthLabel (score p)

/-- A concrete random source used to exercise the generator on closed
inputs: the stream that always yields `0`. -/
def gZero : Rng := { stream := fun _ => 0, idx := 0 }

/-- The request built from the source's default keyword arguments. -/
def reqDefault : GenRequest := {}

/-- A default request with ambiguous characters excluded and no custom
characters. -/
def reqAmbig : GenRequest := { exclude_ambiguous := true }

/-- A request whose per-class minimum counts sum to `5` while the
requested length is `4`. -/
def reqShortMins : GenRequest := { length := 4, min_lowercase := 2 }

/-- A request with a negative lowercase minimum count. -/
def reqNegMin : GenRequest := { min_lowercase := -5 }

/-- `reqNegMin` with the negative minimum replaced by `0`. -/
def reqZeroMin : GenRequest := { min_lowercase := 0 }

/-- The password produced for `reqDefault` from the all-zero source. -/
def pwDefault : List Char := ['A', '0', '!', 'a', 'a', 'a', 'a', 'a', 'a', 'a', 'a', 'a']

/-- The password produced for `reqAmbig` from the all-zero source. -/
def pwAmbig : List Char := ['A', '2', '!', 'a', 'a', 'a', 'a', 'a', 'a', 'a', 'a', 'a']

/-- An all-lowercase 8-character string with no repeated characters. -/
def ex8 : List Char := "abcdefgh".data

end PasswordGenerator

namespace PasswordGenerator

/-! ### Basic facts about the random-source operations -/

theorem choice_mem (s : List Char) (g : Rng) (hs : s ≠ []) : (choice s g).1 ∈ s := by
  have hlen : 0 < s.length := List.length_pos.mpr hs
  have h : g.stream g.idx % s.length < s.length := Nat.mod_lt _ hlen
  simp only [choice, Rng.next]
  rw [List.getD_eq_getElem s 'a' h]
  exact List.getElem_mem h

theorem choice_snd (s : List Char) (g : Rng) :
    (choice s g).2 = { stream := g.stream, idx := g.idx + 1 } := rfl

theorem drawN_snd (s : List Char) (n : Nat) (g : Rng) :
    (drawN s n g).2 = { stream := g.stream, idx := g.idx + n } := by
  induction n generalizing g with
  | zero => simp [drawN]
  | succ n ih =>
    simp only [drawN, choice, Rng.next]
    rw [ih]
    simp [Rng.mk.injEq]
    omega

theorem drawN_length (s : List Char) (n : Nat) (g : Rng) : (drawN s n g).1.length = n := by
  induction n generalizing g with
  | zero => simp [drawN]
  | succ n ih => simp [drawN, ih]

theorem drawN_mem (s : List Char) (hs : s ≠ []) (n : Nat) (g : Rng) :
    ∀ c ∈ (drawN s n g).1, c ∈ s := by
  induction n generalizing g with
  | zero => simp [drawN]
  | succ n ih =>
    intro c hc
    simp only [drawN] at hc
    rcases List.mem_cons.mp hc with h | h
    · exact h ▸ choice_mem s g hs
    · exact ih _ c h

theorem drawN_countP (s : List Char) (hs : s ≠ []) (n : Nat) (g : Rng) :
    (drawN s n g).1.countP (fun c => s.contains c) = n := by
  have hall : ∀ c ∈ (drawN s n g).1, (fun c => s.contains c) c = true := by
    intro c hc
    simpa using drawN_mem s hs n g c hc
  rw [List.countP_eq_length.mpr hall, drawN_length]

/-! ### The shuffle is a permutation -/

theorem getD_set_perm (a d : Char) :
    ∀ (t : List Char) (k : Nat), k < t.length → (t.getD k d :: t.set k a).Perm (a :: t)
  | [], k, hk => absurd hk (by simp)
  | b :: s, 0, _ => by simpa using List.Perm.swap a b s
  | b :: s, k + 1, hk => by
    have ih := getD_set_perm a d s k (by simpa using hk)
    simpa using ((List.Perm.swap b (s.getD k d) (s.set k a)).trans
      ((ih.cons b).trans (List.Perm.swap a b s)))

theorem swap_perm :
    ∀ (l : List Char) (i j : Nat), i < l.length → j < l.length → (swap l i j).Perm l
  | [], i, _, hi, _ => absurd hi (by simp)
  | a :: t, 0, 0, _, _ => by simp [swap]
  | a :: t, 0, k + 1, _, hj => by
    simpa [swap] using getD_set_perm a 'a' t k (by simpa using hj)
  | a :: t, m + 1, 0, hi, _ => by
    simpa [swap] using getD_set_perm a 'a' t m (by simpa using hi)
  | a :: t, m + 1, k + 1, hi, hj => by
    have ih := swap_perm t m k (by simpa using hi) (by simpa using hj)
    simpa [swap] using ih.cons a

theorem fyStep_perm :
    ∀ (i : Nat) (l : List Char) (g : Rng), i < l.length → ((fyStep l i g).1).Perm l
  | 0, l, _, _ => by simp [fyStep]
  | i + 1, l, g, h => by
    have hj : g.stream g.idx % (i + 2) < l.length :=
      lt_of_lt_of_le (Nat.mod_lt _ (by omega)) (by omega)
    have hswap := swap_perm l (i + 1) (g.stream g.idx % (i + 2)) h hj
    have ih := fyStep_perm i (swap l (i + 1) (g.stream g.idx % (i + 2)))
      { stream := g.stream, idx := g.idx + 1 } (hswap.length_eq ▸ (by omega))
    simp only [fyStep, Rng.next]
    exact ih.trans hswap

theorem fisherYates_perm (l : List Char) (g : Rng) : ((fisherYates l g).1).Perm l := by
  cases l with
  | nil => simp [fisherYates, fyStep]
  | cons a t =>
    exact fyStep_perm ((a :: t).length - 1) (a :: t) g (by simp)

end PasswordGenerator

namespace PasswordGenerator

/-! ### Structure of `requiredChars` and `candidatePool` -/

theorem effLower_ne : ∀ e, effLower e ≠ [] := by decide

theorem effUpper_ne : ∀ e, effUpper e ≠ [] := by decide

theorem effDigits_ne : ∀ e, effDigits e ≠ [] := by decide

theorem special_chars_ne : special_chars ≠ [] := by decide

theorem pool_empty_flags (req : GenRequest) (hp : candidatePool req = []) :
    req.include_lowercase = false ∧ req.include_uppercase = false ∧
      req.include_digits = false ∧ req.include_special = false ∧
      req.custom_chars = [] := by
  simp only [candidatePool, List.append_eq_nil] at hp
  obtain ⟨⟨⟨⟨hA, hB⟩, hC⟩, hD⟩, hE⟩ := hp
  refine ⟨?_, ?_, ?_, ?_, hE⟩
  · cases h : req.include_lowercase
    · rfl
    · simp [h] at hA; exact absurd hA (effLower_ne _)
  · cases h : req.include_uppercase
    · rfl
    · simp [h] at hB; exact absurd hB (effUpper_ne _)
  · cases h : req.include_digits
    · rfl
    · simp [h] at hC; exact absurd hC (effDigits_ne _)
  · cases h : req.include_special
    · rfl
    · simp [h] at hD; exact absurd hD special_chars_ne

theorem requiredChars_snd (req : GenRequest) (g : Rng) :
    (requiredChars req g).2 = { stream := g.stream, idx := g.idx + minSum req } := by
  cases h1 : req.include_lowercase <;> cases h2 : req.include_uppercase <;>
    cases h3 : req.include_digits <;> cases h4 : req.include_special <;>
      simp [requiredChars, minSum, h1, h2, h3, h4, drawN_snd, Rng.mk.injEq] <;> omega

theorem requiredChars_length (req : GenRequest) (g : Rng) :
    (requiredChars req g).1.length = minSum req := by
  cases h1 : req.include_lowercase <;> cases h2 : req.include_uppercase <;>
    cases h3 : req.include_digits <;> cases h4 : req.include_special <;>
      simp [requiredChars, minSum, h1, h2, h3, h4, drawN_snd, drawN_length] <;> omega

theorem step_mem {b : Bool} {s : List Char} {m : Nat} {g : Rng} {pr : List Char × Rng}
    (hE : (if b then drawN s m g else ([], g)) = pr) (hs : s ≠ []) :
    ∀ c ∈ pr.1, b = true ∧ c ∈ s := by
  intro c hc
  cases b
  · rw [if_neg (by simp)] at hE
    rw [← hE] at hc
    simp at hc
  · rw [if_pos rfl] at hE
    refine ⟨rfl, drawN_mem s hs m g c ?_⟩
    rw [hE]
    exact hc

theorem requiredChars_mem (req : GenRequest) (g : Rng) :
    ∀ c ∈ (requiredChars req g).1, c ∈ candidatePool req := by
  rcases hE1 : (if req.include_lowercase then
      drawN (effLower req.exclude_ambiguous) req.min_lowercase.toNat g
    else ([], g)) with ⟨r1, g1⟩
  rcases hE2 : (if req.include_uppercase then
      drawN (effUpper req.exclude_ambiguous) req.min_uppercase.toNat g1
    else ([], g1)) with ⟨r2, g2⟩
  rcases hE3 : (if req.include_digits then
      drawN (effDigits req.exclude_ambiguous) req.min_digits.toNat g2
    else ([], g2)) with ⟨r3, g3⟩
  rcases hE4 : (if req.include_special then
      drawN special_chars req.min_special.toNat g3
    else ([], g3)) with ⟨r4, g4⟩
  intro c hc
  simp only [requiredChars, hE1] at hc
  simp only [hE2] at hc
  simp only [hE3] at hc
  simp only [hE4] at hc
  simp only [List.mem_append] at hc
  rcases hc with ((h | h) | h) | h
  · obtain ⟨hb, hcs⟩ := step_mem hE1 (effLower_ne _) c h
    exact List.mem_append_left _ (List.mem_append_left _ (List.mem_append_left _
      (List.mem_append_left _ (by simp [hb]; exact hcs))))
  · obtain ⟨hb, hcs⟩ := step_mem hE2 (effUpper_ne _) c h
    exact List.mem_append_left _ (List.mem_append_left _ (List.mem_append_left _
      (List.mem_append_right _ (by simp [hb]; exact hcs))))
  · obtain ⟨hb, hcs⟩ := step_mem hE3 (effDigits_ne _) c h
    exact List.mem_append_left _ (List.mem_append_left _
      (List.mem_append_right _ (by simp [hb]; exact hcs)))
  · obtain ⟨hb, hcs⟩ := step_mem hE4 special_chars_ne c h
    exact List.mem_append_left _
      (List.mem_append_right _ (by simp [hb]; exact hcs))

end PasswordGenerator

namespace PasswordGenerator

theorem requiredChars_countP_lower (req : GenRequest) (g : Rng)
    (hb : req.include_lowercase = true) :
    req.min_lowercase.toNat ≤ (requiredChars req g).1.countP
      (fun c => (effLower req.exclude_ambiguous).contains c) := by
  rcases hE1 : (if req.include_lowercase then
      drawN (effLower req.exclude_ambiguous) req.min_lowercase.toNat g
    else ([], g)) with ⟨r1, g1⟩
  rcases hE2 : (if req.include_uppercase then
      drawN (effUpper req.exclude_ambiguous) req.min_uppercase.toNat g1
    else ([], g1)) with ⟨r2, g2⟩
  rcases hE3 : (if req.include_digits then
      drawN (effDigits req.exclude_ambiguous) req.min_digits.toNat g2
    else ([], g2)) with ⟨r3, g3⟩
  rcases hE4 : (if req.include_special then
      drawN special_chars req.min_special.toNat g3
    else ([], g3)) with ⟨r4, g4⟩
  have h1 : r1.countP (fun c => (effLower req.exclude_ambiguous).contains c) =
      req.min_lowercase.toNat := by
    rw [hb, if_pos rfl] at hE1
    have h := drawN_countP (effLower req.exclude_ambiguous) (effLower_ne _)
      req.min_lowercase.toNat g
    rw [hE1] at h
    exact h
  simp only [requiredChars, hE1]
  simp only [hE2]
  simp only [hE3]
  simp only [hE4]
  simp only [List.countP_append]
  omega

theorem requiredChars_countP_upper (req : GenRequest) (g : Rng)
    (hb : req.include_uppercase = true) :
    req.min_uppercase.toNat ≤ (requiredChars req g).1.countP
      (fun c => (effUpper req.exclude_ambiguous).contains c) := by
  rcases hE1 : (if req.include_lowercase then
      drawN (effLower req.exclude_ambiguous) req.min_lowercase.toNat g
    else ([], g)) with ⟨r1, g1⟩
  rcases hE2 : (if req.include_uppercase then
      drawN (effUpper req.exclude_ambiguous) req.min_uppercase.toNat g1
    else ([], g1)) with ⟨r2, g2⟩
  rcases hE3 : (if req.include_digits then
      drawN (effDigits req.exclude_ambiguous) req.min_digits.toNat g2
    else ([], g2)) with ⟨r3, g3⟩
  rcases hE4 : (if req.include_special then
      drawN special_chars req.min_special.toNat g3
    else ([], g3)) with ⟨r4, g4⟩
  have h2 : r2.countP (fun c => (effUpper req.exclude_ambiguous).contains c) =
      req.min_uppercase.toNat := by
    rw [hb, if_pos rfl] at hE2
    have h := drawN_countP (effUpper req.exclude_ambiguous) (effUpper_ne _)
      req.min_uppercase.toNat g1
    rw [hE2] at h
    exact h
  simp only [requiredChars, hE1]
  simp only [hE2]
  simp only [hE3]
  simp only [hE4]
  simp only [List.countP_append]
  omega

theorem requiredChars_countP_digits (req : GenRequest) (g : Rng)
    (hb : req.include_digits = true) :
    req.min_digits.toNat ≤ (requiredChars req g).1.countP
      (fun c => (effDigits req.exclude_ambiguous).contains c) := by
  rcases hE1 : (if req.include_lowercase then
      drawN (effLower req.exclude_ambiguous) req.min_lowercase.toNat g
    else ([], g)) with ⟨r1, g1⟩
  rcases hE2 : (if req.include_uppercase then
      drawN (effUpper req.exclude_ambiguous) req.min_uppercase.toNat g1
    else ([], g1)) with ⟨r2, g2⟩
  rcases hE3 : (if req.include_digits then
      drawN (effDigits req.exclude_ambiguous) req.min_digits.toNat g2
    else ([], g2)) with ⟨r3, g3⟩
  rcases hE4 : (if req.include_special then
      drawN special_chars req.min_special.toNat g3
    else ([], g3)) with ⟨r4, g4⟩
  have h3 : r3.countP (fun c => (effDigits req.exclude_ambiguous).contains c) =
      req.min_digits.toNat := by
    rw [hb, if_pos rfl] at hE3
    have h := drawN_countP (effDigits req.exclude_ambiguous) (effDigits_ne _)
      req.min_digits.toNat g2
    rw [hE3] at h
    exact h
  simp only [requiredChars, hE1]
  simp only [hE2]
  simp only [hE3]
  simp only [hE4]
  simp only [List.countP_append]
  omega

theorem requiredChars_countP_special (req : GenRequest) (g : Rng)
    (hb : req.include_special = true) :
    req.min_special.toNat ≤ (requiredChars req g).1.countP
      (fun c => special_chars.contains c) := by
  rcases hE1 : (if req.include_lowercase then
      drawN (effLower req.exclude_ambiguous) req.min_lowercase.toNat g
    else ([], g)) with ⟨r1, g1⟩
  rcases hE2 : (if req.include_uppercase then
      drawN (effUpper req.exclude_ambiguous) req.min_uppercase.toNat g1
    else ([], g1)) with ⟨r2, g2⟩
  rcases hE3 : (if req.include_digits then
      drawN (effDigits req.exclude_ambiguous) req.min_digits.toNat g2
    else ([], g2)) with ⟨r3, g3⟩
  rcases hE4 : (if req.include_special then
      drawN special_chars req.min_special.toNat g3
    else ([], g3)) with ⟨r4, g4⟩
  have h4 : r4.countP (fun c => special_chars.contains c) = req.min_special.toNat := by
    rw [hb, if_pos rfl] at hE4
    have h := drawN_countP special_chars special_chars_ne req.min_special.toNat g3
    rw [hE4] at h
    exact h
  simp only [requiredChars, hE1]
  simp only [hE2]
  simp only [hE3]
  simp only [hE4]
  simp only [List.countP_append]
  omega

end PasswordGenerator

namespace PasswordGenerator

/-! ### Case analysis of `generate_password` -/

theorem gen_len_err (req : GenRequest) (g : Rng) (h : req.length < 4) :
    generate_password req g =
      (Except.error "Password length must be at least 4 characters", g) := by
  simp [generate_password, h]

theorem gen_pool_err (req : GenRequest) (g : Rng) (h4 : ¬ req.length < 4)
    (hp : candidatePool req = []) :
    generate_password req g = (Except.error "No character types selected", g) := by
  obtain ⟨f1, f2, f3, f4, _⟩ := pool_empty_flags req hp
  have hmin : minSum req = 0 := by simp [minSum, f1, f2, f3, f4]
  rcases hE : requiredChars req g with ⟨required, g4⟩
  have hsnd : g4 = g := by
    have h := requiredChars_snd req g
    rw [hE, hmin] at h
    simp at h
    exact h
  subst hsnd
  simp [generate_password, h4, hp, hE]

theorem gen_min_err (req : GenRequest) (g : Rng) (h4 : ¬ req.length < 4)
    (hp : ¬ candidatePool req = []) (hm : req.length < (minSum req : Int)) :
    generate_password req g =
      (Except.error "Minimum character requirements exceed password length",
        { stream := g.stream, idx := g.idx + minSum req }) := by
  rcases hE : requiredChars req g with ⟨required, g4⟩
  have hlen : required.length = minSum req := by
    have h := requiredChars_length req g
    rw [hE] at h
    exact h
  have hsnd : g4 = { stream := g.stream, idx := g.idx + minSum req } := by
    have h := requiredChars_snd req g
    rw [hE] at h
    exact h
  simp [generate_password, h4, hp, hE, hlen, hm, hsnd]

theorem gen_valid_spec (req : GenRequest) (g : Rng) (h4 : ¬ req.length < 4)
    (hp : ¬ candidatePool req = []) (hm : ¬ req.length < (minSum req : Int)) :
    ∃ pwd gF, generate_password req g = (Except.ok pwd, gF) ∧
      pwd.Perm ((requiredChars req g).1 ++
        (drawN (candidatePool req) ((req.length - (minSum req : Int)).toNat)
          (requiredChars req g).2).1) := by
  rcases hE : requiredChars req g with ⟨required, g4⟩
  have hlen : required.length = minSum req := by
    have h := requiredChars_length req g
    rw [hE] at h
    exact h
  have hm2 : ¬ req.length < (required.length : Int) := by rw [hlen]; exact hm
  rcases hD : drawN (candidatePool req) ((req.length - (required.length : Int)).toNat) g4
    with ⟨filler, g5⟩
  rcases hF : fisherYates (required ++ filler) g5 with ⟨pw, g6⟩
  refine ⟨pw, g6, ?_, ?_⟩
  · simp only [generate_password, if_neg h4, hE, if_neg hp, if_neg hm2, hD, hF]
  · have hperm := fisherYates_perm (required ++ filler) g5
    rw [hF] at hperm
    simp only [← hlen, hD]
    simpa using hperm

theorem gen_ok_shape (req : GenRequest) (g : Rng) (pwd : List Char)
    (h : (generate_password req g).1 = Except.ok pwd) :
    ¬ req.length < 4 ∧ ¬ candidatePool req = [] ∧ ¬ req.length < (minSum req : Int) ∧
      pwd.Perm ((requiredChars req g).1 ++
        (drawN (candidatePool req) ((req.length - (minSum req : Int)).toNat)
          (requiredChars req g).2).1) := by
  by_cases h4 : req.length < 4
  · rw [gen_len_err req g h4] at h
    simp at h
  by_cases hp : candidatePool req = []
  · rw [gen_pool_err req g h4 hp] at h
    simp at h
  by_cases hm : req.length < (minSum req : Int)
  · rw [gen_min_err req g h4 hp hm] at h
    simp at h
  obtain ⟨pw, gF, hgen, hperm⟩ := gen_valid_spec req g h4 hp hm
  rw [hgen] at h
  simp only [] at h
  have hpw : pw = pwd := by
    have := h
    simpa using this
  exact ⟨h4, hp, hm, hpw ▸ hperm⟩

end PasswordGenerator

namespace PasswordGenerator

/-! ### Facts about the analyzer -/

theorem char_pool_size_cases (p : List Char) :
    char_pool_size p = 0 ∨ 10 ≤ char_pool_size p := by
  have hs : special_chars.length = 26 := rfl
  unfold char_pool_size
  cases h1 : has_lower p <;> cases h2 : has_upper p <;> cases h3 : has_digit p <;>
    cases h4 : has_special p <;> simp [hs]

theorem entropy_ge_60_iff (p : List Char) :
    60 ≤ entropyBits p ↔ 2 ^ 60 ≤ char_pool_size p ^ p.length := by
  rcases char_pool_size_cases p with h | h
  · have hnot : ¬ (60 : ℝ) ≤ entropyBits p := by
      rw [entropyBits, h]
      norm_num
    have hnot2 : ¬ 2 ^ 60 ≤ char_pool_size p ^ p.length := by
      rw [h]
      rcases Nat.eq_zero_or_pos p.length with h0 | h0
      · rw [h0]
        norm_num
      · rw [zero_pow h0.ne']
        norm_num
    exact iff_of_false hnot hnot2
  · have hpos : 0 < char_pool_size p := by omega
    have hy : (0 : ℝ) < (char_pool_size p : ℝ) ^ p.length := by positivity
    rw [entropyBits, if_pos hpos, ← Real.logb_pow,
      Real.le_logb_iff_rpow_le one_lt_two hy,
      show (60 : ℝ) = ((60 : ℕ) : ℝ) by norm_num, Real.rpow_natCast]
    constructor
    · intro hh
      exact_mod_cast hh
    · intro hh
      exact_mod_cast hh

theorem unique_cond (p : List Char) :
    (8 * p.length ≤ 10 * unique_chars p) ↔
      ((p.length : ℚ) * 0.8 ≤ (unique_chars p : ℚ)) := by
  have h5 : (0 : ℚ) < 5 := by norm_num
  rw [show (0.8 : ℚ) = 4 / 5 by norm_num, ← mul_div_assoc, div_le_iff₀ h5]
  constructor
  · intro hh
    have h2 : p.length * 4 ≤ unique_chars p * 5 := by omega
    exact_mod_cast h2
  · intro hh
    have h2 : p.length * 4 ≤ unique_chars p * 5 := by exact_mod_cast hh
    omega

theorem strengthLabel_mem (s : Nat) :
    strengthLabel s ∈ ["Very Weak", "Weak", "Moderate", "Strong", "Very Strong"] := by
  unfold strengthLabel
  split_ifs <;> simp

theorem mem_ite_nil {b : Bool} {s : List Char} {c : Char}
    (h : c ∈ (if b then s else [])) : c ∈ s := by
  cases b
  · simp at h
  · simpa using h

end PasswordGenerator

namespace PasswordGenerator

/-! ### Claims -/

/-- C1 (counterexample): the claim "every failing request raises before
consuming any randomness" is false at the concrete request with length 4
and minimum counts summing to 5: the call raises, yet the random source
has advanced (by five draws) before the error is raised. -/
theorem errors_before_randomness_counterexample :
    isErr (generate_password reqShortMins gZero).1 = true ∧
      (generate_password reqShortMins gZero).2.idx ≠ gZero.idx := by
  constructor
  · rfl
  · decide

/-- C1 (amended): the length error and the empty-pool error are raised
with the random source untouched; the minimum-sum error is raised only
after the per-class required draws (one random value per unit of minimum
count, `minSum req` in total) have been consumed, though before any
filler draw or shuffle. -/
theorem errors_draw_consumption (req : GenRequest) (g : Rng) :
    (req.length < 4 → generate_password req g =
      (Except.error "Password length must be at least 4 characters", g)) ∧
    (¬ req.length < 4 → candidatePool req = [] → generate_password req g =
      (Except.error "No character types selected", g)) ∧
    (¬ req.length < 4 → candidatePool req ≠ [] → req.length < (minSum req : Int) →
      generate_password req g =
        (Except.error "Minimum character requirements exceed password length",
          { stream := g.stream, idx := g.idx + minSum req })) :=
  ⟨gen_len_err req g, gen_pool_err req g, gen_min_err req g⟩

/-- Witness for the amended C1, at the request with length 4 and minimum
counts summing to 5. -/
theorem errors_draw_consumption_witness :
    generate_password reqShortMins gZero =
      (Except.error "Minimum character requirements exceed password length",
        { stream := gZero.stream, idx := gZero.idx + minSum reqShortMins }) :=
  (errors_draw_consumption reqShortMins gZero).2.2 (by decide) (by decide) (by decide)

/-- C3: for nonnegative minimum counts, `generate_password` raises iff the
length is below 4, or the candidate pool is empty, or the sum of the
included classes' minimum counts exceeds the requested length. -/
theorem generate_error_iff (req : GenRequest) (g : Rng)
    (h1 : 0 ≤ req.min_lowercase) (h2 : 0 ≤ req.min_uppercase)
    (h3 : 0 ≤ req.min_digits) (h4 : 0 ≤ req.min_special) :
    isErr (generate_password req g).1 = true ↔
      (req.length < 4 ∨ candidatePool req = [] ∨
        req.length <
          (if req.include_lowercase then req.min_lowercase else 0) +
          (if req.include_uppercase then req.min_uppercase else 0) +
          (if req.include_digits then req.min_digits else 0) +
          (if req.include_special then req.min_special else 0)) := by
  have hsum : ((minSum req : Int)) =
      (if req.include_lowercase then req.min_lowercase else 0) +
      (if req.include_uppercase then req.min_uppercase else 0) +
      (if req.include_digits then req.min_digits else 0) +
      (if req.include_special then req.min_special else 0) := by
    simp only [minSum]
    cases hb1 : req.include_lowercase <;> cases hb2 : req.include_uppercase <;>
      cases hb3 : req.include_digits <;> cases hb4 : req.include_special <;>
        simp [Int.toNat_of_nonneg h1, Int.toNat_of_nonneg h2,
          Int.toNat_of_nonneg h3, Int.toNat_of_nonneg h4]
  rw [← hsum]
  by_cases hl : req.length < 4
  · rw [gen_len_err req g hl]
    simp [isErr, hl]
  by_cases hp : candidatePool req = []
  · rw [gen_pool_err req g hl hp]
    simp [isErr, hp]
  by_cases hm : req.length < (minSum req : Int)
  · rw [gen_min_err req g hl hp hm]
    simp [isErr, hm]
  · obtain ⟨pw, gF, hgen, _⟩ := gen_valid_spec req g hl hp hm
    rw [hgen]
    simp [isErr, hl, hp, hm]

/-- Witness for C3 at a failing request (minimum sum 5, length 4). -/
theorem generate_error_iff_witness :
    isErr (generate_password reqShortMins gZero).1 = true :=
  (generate_error_iff reqShortMins gZero (by decide) (by decide) (by decide)
    (by decide)).mpr (Or.inr (Or.inr (by decide)))

/-- C4: a successfully generated password has exactly the requested
length. -/
theorem generate_length_exact (req : GenRequest) (g : Rng) (pwd : List Char)
    (h : (generate_password req g).1 = Except.ok pwd) :
    (pwd.length : Int) = req.length := by
  obtain ⟨h4, hp, hm, hperm⟩ := gen_ok_shape req g pwd h
  have hlen := hperm.length_eq
  rw [List.length_append, requiredChars_length, drawN_length] at hlen
  omega

/-- Witness for C4 at the default request and the all-zero source. -/
theorem generate_length_exact_witness :
    ((pwDefault.length : Int)) = reqDefault.length :=
  generate_length_exact reqDefault gZero pwDefault rfl

/-- C5: a successfully generated password contains, for each included
class, at least the requested minimum number of characters from that
class's effective alphabet. -/
theorem generate_min_counts (req : GenRequest) (g : Rng) (pwd : List Char)
    (h : (generate_password req g).1 = Except.ok pwd) :
    (req.include_lowercase = true → req.min_lowercase ≤
      (pwd.countP (fun c => (effLower req.exclude_ambiguous).contains c) : Int)) ∧
    (req.include_uppercase = true → req.min_uppercase ≤
      (pwd.countP (fun c => (effUpper req.exclude_ambiguous).contains c) : Int)) ∧
    (req.include_digits = true → req.min_digits ≤
      (pwd.countP (fun c => (effDigits req.exclude_ambiguous).contains c) : Int)) ∧
    (req.include_special = true → req.min_special ≤
      (pwd.countP (fun c => special_chars.contains c) : Int)) := by
  obtain ⟨h4, hp, hm, hperm⟩ := gen_ok_shape req g pwd h
  refine ⟨fun hb => ?_, fun hb => ?_, fun hb => ?_, fun hb => ?_⟩
  · have hge : req.min_lowercase.toNat ≤
        pwd.countP (fun c => (effLower req.exclude_ambiguous).contains c) := by
      rw [hperm.countP_eq, List.countP_append]
      have hc := requiredChars_countP_lower req g hb
      omega
    omega
  · have hge : req.min_uppercase.toNat ≤
        pwd.countP (fun c => (effUpper req.exclude_ambiguous).contains c) := by
      rw [hperm.countP_eq, List.countP_append]
      have hc := requiredChars_countP_upper req g hb
      omega
    omega
  · have hge : req.min_digits.toNat ≤
        pwd.countP (fun c => (effDigits req.exclude_ambiguous).contains c) := by
      rw [hperm.countP_eq, List.countP_append]
      have hc := requiredChars_countP_digits req g hb
      omega
    omega
  · have hge : req.min_special.toNat ≤
        pwd.countP (fun c => special_chars.contains c) := by
      rw [hperm.countP_eq, List.countP_append]
      have hc := requiredChars_countP_special req g hb
      omega
    omega

/-- Witness for C5 (lowercase class) at the default request. -/
theorem generate_min_counts_witness :
    reqDefault.min_lowercase ≤
      (pwDefault.countP (fun c =>
        (effLower reqDefault.exclude_ambiguous).contains c) : Int) :=
  (generate_min_counts reqDefault gZero pwDefault rfl).1 rfl

/-- C6: every character of a successfully generated password belongs to
the candidate pool (union of included effective alphabets and the custom
characters). -/
theorem generate_chars_in_pool (req : GenRequest) (g : Rng) (pwd : List Char)
    (h : (generate_password req g).1 = Except.ok pwd) :
    ∀ c ∈ pwd, c ∈ candidatePool req := by
  obtain ⟨h4, hp, hm, hperm⟩ := gen_ok_shape req g pwd h
  intro c hc
  have hc2 := hperm.mem_iff.mp hc
  rcases List.mem_append.mp hc2 with hr | hf
  · exact requiredChars_mem req g c hr
  · exact drawN_mem _ hp _ _ c hf

/-- Witness for C6: the first character generated for the default request
lies in the default candidate pool. -/
theorem generate_chars_in_pool_witness : 'A' ∈ candidatePool reqDefault :=
  generate_chars_in_pool reqDefault gZero pwDefault rfl 'A' (by decide)

/-- C7: with ambiguous exclusion on, the effective lowercase, uppercase
and digit alphabets are disjoint from the ambiguous set (the special
alphabet is used unfiltered by construction, see `candidatePool`). -/
theorem effective_alphabets_ambiguous_free (c : Char)
    (h : c ∈ effLower true ∨ c ∈ effUpper true ∨ c ∈ effDigits true) :
    c ∉ ambiguous_chars := by
  rcases h with h | h | h
  · exact (by decide : ∀ x ∈ effLower true, x ∉ ambiguous_chars) c h
  · exact (by decide : ∀ x ∈ effUpper true, x ∉ ambiguous_chars) c h
  · exact (by decide : ∀ x ∈ effDigits true, x ∉ ambiguous_chars) c h

/-- Witness for C7 at the character `a`. -/
theorem effective_alphabets_ambiguous_free_witness :
    ('a' ∈ effLower true ∨ 'a' ∈ effUpper true ∨ 'a' ∈ effDigits true) ∧
      'a' ∉ ambiguous_chars :=
  ⟨Or.inl (by decide), effective_alphabets_ambiguous_free 'a' (Or.inl (by decide))⟩

end PasswordGenerator

namespace PasswordGenerator

theorem generate_password_congr (req req2 : GenRequest) (g : Rng)
    (hL : req.length = req2.length)
    (hP : candidatePool req = candidatePool req2)
    (hR : requiredChars req g = requiredChars req2 g) :
    generate_password req g = generate_password req2 g := by
  simp only [generate_password, hL, hP, hR]

theorem requiredChars_zero_minLower (req : GenRequest) (g : Rng)
    (h : req.min_lowercase ≤ 0) :
    requiredChars req g = requiredChars { req with min_lowercase := 0 } g := by
  simp only [requiredChars, Int.toNat_zero]
  rw [Int.toNat_of_nonpos h]

theorem requiredChars_zero_minUpper (req : GenRequest) (g : Rng)
    (h : req.min_uppercase ≤ 0) :
    requiredChars req g = requiredChars { req with min_uppercase := 0 } g := by
  simp only [requiredChars, Int.toNat_zero]
  rw [Int.toNat_of_nonpos h]

theorem requiredChars_zero_minDigits (req : GenRequest) (g : Rng)
    (h : req.min_digits ≤ 0) :
    requiredChars req g = requiredChars { req with min_digits := 0 } g := by
  simp only [requiredChars, Int.toNat_zero]
  rw [Int.toNat_of_nonpos h]

theorem requiredChars_zero_minSpecial (req : GenRequest) (g : Rng)
    (h : req.min_special ≤ 0) :
    requiredChars req g = requiredChars { req with min_special := 0 } g := by
  simp only [requiredChars, Int.toNat_zero]
  rw [Int.toNat_of_nonpos h]

/-- C2 (counterexample): on the empty string the analyzer's score is `1`,
not `0`: the uniqueness predicate `unique_chars >= length * 0.8` is
vacuously satisfied at length `0`. -/
theorem check_strength_empty_counterexample :
    (check_strength ([] : List Char)).score = 1 ∧
      (check_strength ([] : List Char)).score ≠ 0 := by
  constructor
  · rfl
  · decide

/-- C2 (amended): the empty string yields a report with length 0,
pool size 0, entropy 0, score 1 (only the 80-percent-uniqueness
predicate holds, vacuously), and label "Very Weak"; every string yields
a report whose label is one of the five labels (the analyzer has no
error path). -/
theorem check_strength_empty_and_total :
    (check_strength ([] : List Char)).length = 0 ∧
    (check_strength ([] : List Char)).char_pool_size = 0 ∧
    entropyBits [] = 0 ∧
    (check_strength ([] : List Char)).score = 1 ∧
    (check_strength ([] : List Char)).strength = "Very Weak" ∧
    ∀ p : List Char, (check_strength p).strength ∈
      ["Very Weak", "Weak", "Moderate", "Strong", "Very Strong"] := by
  refine ⟨rfl, rfl, ?_, rfl, rfl, fun p => ?_⟩
  · have h0 : char_pool_size ([] : List Char) = 0 := rfl
    simp [entropyBits, h0]
  · exact strengthLabel_mem (score p)

/-- C8: the analyzer's score is the number of satisfied predicates among
length at least 8, length at least 12, the four class-presence tests, at
least 80 percent unique characters, and entropy at least 60 bits; the
label follows the fixed thresholds; and on the all-lowercase 8-character
string with no repeats the pool size is 26, the entropy is
`8 * log2 26`, the score is 3, and the label is "Weak". -/
theorem score_and_label_spec :
    (∀ p : List Char,
      (check_strength p).score =
        (if 8 ≤ p.length then 1 else 0) +
        (if 12 ≤ p.length then 1 else 0) +
        (if has_lower p then 1 else 0) +
        (if has_upper p then 1 else 0) +
        (if has_digit p then 1 else 0) +
        (if has_special p then 1 else 0) +
        (if (p.length : ℚ) * 0.8 ≤ (unique_chars p : ℚ) then 1 else 0) +
        (if 60 ≤ entropyBits p then 1 else 0)) ∧
    (∀ p : List Char,
      (check_strength p).strength =
        if (check_strength p).score ≤ 2 then "Very Weak"
        else if (check_strength p).score ≤ 4 then "Weak"
        else if (check_strength p).score ≤ 6 then "Moderate"
        else if (check_strength p).score ≤ 7 then "Strong"
        else "Very Strong") ∧
    (check_strength ex8).char_pool_size = 26 ∧
    entropyBits ex8 = 8 * Real.logb 2 26 ∧
    (check_strength ex8).score = 3 ∧
    (check_strength ex8).strength = "Weak" := by
  refine ⟨fun p => ?_, fun p => rfl, rfl, ?_, by decide, rfl⟩
  · show score p = _
    unfold score
    rw [if_congr (unique_cond p) rfl rfl, if_congr (entropy_ge_60_iff p).symm rfl rfl]
  · have h26 : char_pool_size ex8 = 26 := rfl
    have hlen8 : ex8.length = 8 := rfl
    simp only [entropyBits, h26, hlen8]
    norm_num

/-- C9: a negative per-class minimum count behaves exactly as the
minimum count `0`: no required draw for the class, no contribution to
the minimum-sum check, no error caused by the negative value. -/
theorem negative_min_treated_as_zero (req : GenRequest) (g : Rng) :
    (req.min_lowercase < 0 →
      generate_password req g = generate_password { req with min_lowercase := 0 } g) ∧
    (req.min_uppercase < 0 →
      generate_password req g = generate_password { req with min_uppercase := 0 } g) ∧
    (req.min_digits < 0 →
      generate_password req g = generate_password { req with min_digits := 0 } g) ∧
    (req.min_special < 0 →
      generate_password req g = generate_password { req with min_special := 0 } g) :=
  ⟨fun h => generate_password_congr _ _ g rfl rfl
      (requiredChars_zero_minLower req g (le_of_lt h)),
   fun h => generate_password_congr _ _ g rfl rfl
      (requiredChars_zero_minUpper req g (le_of_lt h)),
   fun h => generate_password_congr _ _ g rfl rfl
      (requiredChars_zero_minDigits req g (le_of_lt h)),
   fun h => generate_password_congr _ _ g rfl rfl
      (requiredChars_zero_minSpecial req g (le_of_lt h))⟩

/-- Witness for C9: minimum count `-5` for lowercase behaves as `0`. -/
theorem negative_min_treated_as_zero_witness :
    reqNegMin.min_lowercase < 0 ∧
      generate_password reqNegMin gZero = generate_password reqZeroMin gZero := by
  refine ⟨by decide, ?_⟩
  exact (negative_min_treated_as_zero reqNegMin gZero).1 (by decide)

/-- C10: with ambiguous exclusion on and no custom characters, no
generated password ever contains a character of the ambiguous set; the
fixed special alphabet is itself disjoint from the ambiguous set. -/
theorem exclude_ambiguous_password_ambiguous_free (req : GenRequest) (g : Rng)
    (pwd : List Char) (hx : req.exclude_ambiguous = true)
    (hcc : req.custom_chars = [])
    (h : (generate_password req g).1 = Except.ok pwd) :
    (∀ c ∈ special_chars, c ∉ ambiguous_chars) ∧ ∀ c ∈ pwd, c ∉ ambiguous_chars := by
  have hspec : ∀ c ∈ special_chars, c ∉ ambiguous_chars := by decide
  have hpool : ∀ c ∈ candidatePool req, c ∉ ambiguous_chars := by
    intro c hcp
    simp only [candidatePool, hx, hcc, List.append_nil, List.mem_append] at hcp
    rcases hcp with ((hA | hB) | hC) | hD
    · exact (by decide : ∀ x ∈ effLower true, x ∉ ambiguous_chars) c (mem_ite_nil hA)
    · exact (by decide : ∀ x ∈ effUpper true, x ∉ ambiguous_chars) c (mem_ite_nil hB)
    · exact (by decide : ∀ x ∈ effDigits true, x ∉ ambiguous_chars) c (mem_ite_nil hC)
    · exact hspec c (mem_ite_nil hD)
  obtain ⟨h4, hp, hm, hperm⟩ := gen_ok_shape req g pwd h
  refine ⟨hspec, fun c hc => ?_⟩
  have hc2 := hperm.mem_iff.mp hc
  rcases List.mem_append.mp hc2 with hr | hf
  · exact hpool c (requiredChars_mem req g c hr)
  · exact hpool c (drawN_mem _ hp _ _ c hf)

/-- Witness for C10 at a concrete ambiguous-excluding request. -/
theorem exclude_ambiguous_password_ambiguous_free_witness :
    reqAmbig.exclude_ambiguous = true ∧ reqAmbig.custom_chars = [] ∧
      'A' ∉ ambiguous_chars :=
  ⟨rfl, rfl,
    (exclude_ambiguous_password_ambiguous_free reqAmbig gZero pwAmbig rfl rfl rfl).2
      'A' (by decide)⟩

end PasswordGenerator
